import Mathlib

/-!
Shallow embedding of the Qless canteen ordering backend (order queue state
machine and its broadcast mechanism), translated from the JavaScript source:

* `src/models/Order.js`    — order schema and `getQueuePosition`
* `src/routes/orders.js`   — order creation, history, status transitions
* `src/socket` module      — `emitQueueUpdate` / `emitOrderReady`
* menu routes              — `PUT /api/menu/:id`, `DELETE /api/menu/:id`

ObjectIds are modelled as `Nat`, Mongo timestamps (`createdAt`) as `Nat`
milliseconds, and the Mongo collections as Lean lists.  Prices are `Nat`
(the menu schema validates `price ≥ 0`).
-/

namespace Qless

/-- Order status enum from `orderSchema` in `src/models/Order.js`:
`[pending, preparing, ready, completed]`. -/
inductive Status
  | pending
  | preparing
  | ready
  | completed
deriving DecidableEq

/-- Line item subdocument (`orderItemSchema`): a snapshot of the menu item
taken at creation time (`menuItemId`, `name`, `quantity`, `price`). -/
structure OrderItem where
  menuItemId : Nat
  name : String
  quantity : Nat
  price : Nat
deriving DecidableEq

/-- Order document (`orderSchema`): optional `userId` for registered
customers, `customerName`, line items, `totalAmount`, `status`, and the
`createdAt` timestamp added by `{ timestamps: true }`. -/
structure Order where
  id : Nat
  userId : Option Nat
  customerName : String
  items : List OrderItem
  totalAmount : Nat
  status : Status
  createdAt : Nat
deriving DecidableEq

/-- Menu item document (`menuItemSchema`): `name`, `price`, `isAvailable`
(the fields consulted by order creation). -/
structure MenuItem where
  id : Nat
  name : String
  price : Nat
  isAvailable : Bool
deriving DecidableEq

/-- An order is active iff its status is in `[pending, preparing]`
(the filter used by `getQueuePosition`, `GET /api/orders` and
`emitQueueUpdate`). -/
def isActive (o : Order) : Bool :=
  o.status == Status.pending || o.status == Status.preparing

/-- `orderSchema.methods.getQueuePosition`: count the active orders whose
`createdAt` is strictly before the `createdAt` of this order, plus one. -/
def getQueuePosition (db : List Order) (o : Order) : Nat :=
  (db.filter (fun x => isActive x && x.createdAt < o.createdAt)).length + 1

/-- Mongo ascending sort key `.sort({ createdAt: 1 })`. -/
def keyLE (a b : Order) : Prop := a.createdAt ≤ b.createdAt

instance : DecidableRel keyLE := fun a b => Nat.decLe a.createdAt b.createdAt

instance : IsTotal Order keyLE := ⟨fun a b => Nat.le_total a.createdAt b.createdAt⟩

instance : IsTrans Order keyLE := ⟨fun _ _ _ h h2 => Nat.le_trans h h2⟩

/-- Mongo descending sort key `.sort({ createdAt: -1 })`. -/
def keyGE (a b : Order) : Prop := b.createdAt ≤ a.createdAt

instance : DecidableRel keyGE := fun a b => Nat.decLe b.createdAt a.createdAt

instance : IsTotal Order keyGE := ⟨fun a b => Nat.le_total b.createdAt a.createdAt⟩

instance : IsTrans Order keyGE := ⟨fun _ _ _ h h2 => Nat.le_trans h2 h⟩

/-- the `Order.find` over pending/preparing statuses with ascending `createdAt` sort — the
query shared by `GET /api/orders` and `emitQueueUpdate`. -/
def activeOrders (db : List Order) : List Order :=
  (db.filter isActive).insertionSort keyLE

/-- One element of the `queueData` array built by `emitQueueUpdate`:
`{ orderId, status, customerName, queuePosition }`. -/
structure QueueEntry where
  orderId : Nat
  status : Status
  customerName : String
  queuePosition : Nat
deriving DecidableEq

/-- the indexed map `activeOrders.map((order, index) => ({...}))` in
`emitQueueUpdate`, with `queuePosition = index + 1`; `pos` is the position
of the head of the remaining list. -/
def buildQueue (pos : Nat) : List Order → List QueueEntry
  | [] => []
  | o :: rest => ⟨o.id, o.status, o.customerName, pos⟩ :: buildQueue (pos + 1) rest

/-- `queueData` as computed inside `emitQueueUpdate`: the active orders in
ascending `createdAt` order, each paired with its 1-based index. -/
def queueData (db : List Order) : List QueueEntry :=
  buildQueue 1 (activeOrders db)

/-- Socket.io routing target: `io.emit` (global), `io.to` on the per-order room,
or on the kitchen room. -/
inductive Channel
  | global
  | orderRoom (orderId : Nat)
  | kitchen
deriving DecidableEq

/-- Socket.io event payloads: `queue:update`, `queue:position`,
`kitchen:queue`, `order:ready`. -/
inductive Payload
  | queueUpdate (entries : List QueueEntry)
  | queuePosition (orderId : Nat) (status : Status) (pos : Nat)
  | kitchenQueue (entries : List QueueEntry)
  | orderReady (orderId : Nat)
deriving DecidableEq

/-- One published message: channel plus payload. -/
structure Msg where
  channel : Channel
  payload : Payload
deriving DecidableEq

/-- `emitQueueUpdate`: read the active orders once, build `queueData`,
emit `queue:update` globally, `queue:position` to the room of each order, and
`kitchen:queue` to the kitchen room — all from the same `queueData`. -/
def emitQueueUpdate (db : List Order) : List Msg :=
  let qd := queueData db
  ⟨Channel.global, Payload.queueUpdate qd⟩ ::
    (qd.map (fun e =>
      ⟨Channel.orderRoom e.orderId, Payload.queuePosition e.orderId e.status e.queuePosition⟩) ++
     [⟨Channel.kitchen, Payload.kitchenQueue qd⟩])

/-- `emitOrderReady`: emit `order:ready` to the room of the order, then
an empty `queue:update` globally ("trigger refresh"). -/
def emitOrderReady (orderId : Nat) : List Msg :=
  [⟨Channel.orderRoom orderId, Payload.orderReady orderId⟩,
   ⟨Channel.global, Payload.queueUpdate []⟩]

/-- `VALID_TRANSITIONS` from `src/routes/orders.js`. -/
def VALID_TRANSITIONS : Status → List Status
  | Status.pending => [Status.preparing]
  | Status.preparing => [Status.ready]
  | Status.ready => [Status.completed]
  | Status.completed => []

/-- `Order.findById` — first order whose `_id` matches. -/
def findOrder (db : List Order) (id : Nat) : Option Order :=
  db.find? (fun o => o.id == id)

/-- the in-place status update `order.status = status; await order.save()`. -/
def updateOrderStatus (db : List Order) (id : Nat) (s : Status) : List Order :=
  db.map (fun o => if o.id == id then { o with status := s } else o)

/-- Outcome of `PATCH /api/orders/:id/status`: 404, the 400 payload naming
the current status and the allowed next statuses, or 200 with the updated
order. -/
inductive PatchResult
  | notFound
  | invalidTransition (current : Status) (allowed : List Status)
  | ok (order : Order)
deriving DecidableEq

/-- `PATCH /api/orders/:id/status` handler: look up the order; reject when
the requested status is not in `VALID_TRANSITIONS[order.status]`; otherwise
save the new status, call `emitOrderReady` when the new status is `ready`,
and always call `emitQueueUpdate`.  Returns the updated collection, the
HTTP result and the emitted messages. -/
def patchStatus (db : List Order) (id : Nat) (s : Status) :
    List Order × PatchResult × List Msg :=
  match findOrder db id with
  | none => (db, PatchResult.notFound, [])
  | some o =>
    let allowed := VALID_TRANSITIONS o.status
    if s ∈ allowed then
      let db2 := updateOrderStatus db id s
      ((db2, PatchResult.ok { o with status := s },
        (if s = Status.ready then emitOrderReady o.id else []) ++ emitQueueUpdate db2))
    else
      (db, PatchResult.invalidTransition o.status allowed, [])

/-- One requested line `{ menuItemId, quantity }` of `POST /api/orders`
(and one `cartItemSchema` entry: same shape). -/
structure ReqItem where
  menuItemId : Nat
  quantity : Nat
deriving DecidableEq

/-- Cart document (`cartSchema`): `userId` plus items. -/
structure Cart where
  userId : Nat
  items : List ReqItem
deriving DecidableEq

/-- User document fields consulted by `POST /api/orders/from-cart`. -/
structure User where
  id : Nat
  name : String
deriving DecidableEq

/-- Failures of order creation: the express-validator 400s, the 400 for a
missing (`Menu item ... not found`) or unavailable menu item, the empty
cart 400, and the 404 for a missing user. -/
inductive CreateError
  | noItems
  | badQuantity
  | itemNotFound (menuItemId : Nat)
  | unavailable (name : String)
  | cartEmpty
  | userNotFound
deriving DecidableEq

/-- `MenuItem.findById`. -/
def findMenuItem (menu : List MenuItem) (id : Nat) : Option MenuItem :=
  menu.find? (fun m => m.id == id)

/-- the item loop shared verbatim by `POST /api/orders` and
`POST /api/orders/from-cart`: for each requested item, look the menu item
up (400 when missing), reject when `!menuItem.isAvailable`, otherwise push
the `{menuItemId, name, quantity, price}` snapshot and add
`menuItem.price * quantity` to the running total. -/
def buildOrderItems (menu : List MenuItem) :
    List ReqItem → Except CreateError (List OrderItem × Nat)
  | [] => Except.ok ([], 0)
  | it :: rest =>
    match findMenuItem menu it.menuItemId with
    | none => Except.error (CreateError.itemNotFound it.menuItemId)
    | some m =>
      if m.isAvailable then
        match buildOrderItems menu rest with
        | Except.error e => Except.error e
        | Except.ok (os, t) =>
          Except.ok (⟨m.id, m.name, it.quantity, m.price⟩ :: os, m.price * it.quantity + t)
      else
        Except.error (CreateError.unavailable m.name)

/-- Full mutable state touched by the routes: the menu, order, cart and
user collections, plus the id Mongo would assign to the next inserted
order and the current wall clock used for its `createdAt`. -/
structure AppState where
  menu : List MenuItem
  orders : List Order
  carts : List Cart
  users : List User
deriving DecidableEq

/-- Successful creation response: `{ order, queuePosition }` (HTTP 201). -/
structure CreateResponse where
  order : Order
  queuePosition : Nat
deriving DecidableEq

/-- `POST /api/orders` handler.  `newId` is the ObjectId Mongo assigns and
`now` the `createdAt` timestamp stamped by `{ timestamps: true }`.
Validation (`items` a non-empty array, every quantity ≥ 1) happens first;
then the item loop; then `Order.create`, `getQueuePosition` and
`emitQueueUpdate`.  Every early return leaves the state unchanged. -/
def createOrder (st : AppState) (customerName : String) (items : List ReqItem)
    (newId now : Nat) :
    AppState × Except CreateError CreateResponse × List Msg :=
  if items.isEmpty then (st, Except.error CreateError.noItems, [])
  else if items.any (fun it => it.quantity == 0) then
    (st, Except.error CreateError.badQuantity, [])
  else
    match buildOrderItems st.menu items with
    | Except.error e => (st, Except.error e, [])
    | Except.ok (orderItems, totalAmount) =>
      let order : Order :=
        ⟨newId, none, customerName, orderItems, totalAmount, Status.pending, now⟩
      let db2 := st.orders ++ [order]
      (({ st with orders := db2 },
        Except.ok ⟨order, getQueuePosition db2 order⟩,
        emitQueueUpdate db2))

/-- `POST /api/orders/from-cart` handler: load the user (404 when absent),
load the cart (400 when missing or empty), run the same item loop, create
the order with `userId` and `customerName: user.name`, compute the queue
position, clear the cart, and emit the queue update. -/
def createOrderFromCart (st : AppState) (userId : Nat) (newId now : Nat) :
    AppState × Except CreateError CreateResponse × List Msg :=
  match st.users.find? (fun u => u.id == userId) with
  | none => (st, Except.error CreateError.userNotFound, [])
  | some user =>
    match st.carts.find? (fun c => c.userId == userId) with
    | none => (st, Except.error CreateError.cartEmpty, [])
    | some cart =>
      if cart.items.isEmpty then (st, Except.error CreateError.cartEmpty, [])
      else
        match buildOrderItems st.menu cart.items with
        | Except.error e => (st, Except.error e, [])
        | Except.ok (orderItems, totalAmount) =>
          let order : Order :=
            ⟨newId, some user.id, user.name, orderItems, totalAmount, Status.pending, now⟩
          let db2 := st.orders ++ [order]
          let carts2 := st.carts.map (fun c =>
            if c.userId == userId then { c with items := [] } else c)
          (({ st with orders := db2, carts := carts2 },
            Except.ok ⟨order, getQueuePosition db2 order⟩,
            emitQueueUpdate db2))

/-- `GET /api/orders/:id`: the order plus its live queue position, `null`
(`none`) when the status is not in `[pending, preparing]`. -/
def getOrderById (db : List Order) (id : Nat) : Option (Order × Option Nat) :=
  match findOrder db id with
  | none => none
  | some o =>
    some (o, if isActive o then some (getQueuePosition db o) else none)

/-- Update payload of `PUT /api/menu/:id` (the `allowed` fields that can
affect the snapshot of an order; the others are irrelevant to the claims). -/
structure MenuUpdate where
  name : Option String
  price : Option Nat
  isAvailable : Option Bool
deriving DecidableEq

/-- field-wise merge performed by `findByIdAndUpdate(id, updates)`. -/
def applyMenuUpdate (m : MenuItem) (u : MenuUpdate) : MenuItem :=
  { m with
    name := u.name.getD m.name
    price := u.price.getD m.price
    isAvailable := u.isAvailable.getD m.isAvailable }

/-- `PUT /api/menu/:id`: `MenuItem.findByIdAndUpdate` — rewrites the menu
collection only. -/
def updateMenuItem (st : AppState) (id : Nat) (u : MenuUpdate) : AppState :=
  { st with menu := st.menu.map (fun m => if m.id == id then applyMenuUpdate m u else m) }

/-- `DELETE /api/menu/:id`: `MenuItem.findByIdAndDelete` — removes from the
menu collection only. -/
def deleteMenuItem (st : AppState) (id : Nat) : AppState :=
  { st with menu := st.menu.filter (fun m => !(m.id == id)) }

/-- filter of `GET /api/orders/history`: optional status equality plus the
optional `createdAt ∈ [start, start + one day)` window (`end` is
`start` plus one day). -/
def historyMatch (status : Option Status) (dayStart : Option Nat) (o : Order) : Bool :=
  (match status with
   | none => true
   | some s => o.status == s) &&
  (match dayStart with
   | none => true
   | some d => decide (d ≤ o.createdAt) && decide (o.createdAt < d + 86400000))

/-- `GET /api/orders/history`:
`Order.find(filter).sort({createdAt: -1}).limit(200)`. -/
def orderHistory (db : List Order) (status : Option Status) (dayStart : Option Nat) :
    List Order :=
  ((db.filter (historyMatch status dayStart)).insertionSort keyGE).take 200

/-- `GET /api/orders/my`:
`Order.find({userId, status?}).sort({createdAt: -1}).limit(50)`, each order
annotated with its live queue position (`null` when not active). -/
def myOrders (db : List Order) (userId : Nat) (status : Option Status) :
    List (Order × Option Nat) :=
  (((db.filter (fun o =>
      o.userId == some userId &&
      match status with
      | none => true
      | some s => o.status == s)).insertionSort keyGE).take 50).map
    (fun o => (o, if isActive o then some (getQueuePosition db o) else none))

/-- fire-and-forget transport wrapper: the route handlers call
`emitQueueUpdate()` / `emitOrderReady()` without `await` and the socket
module returns silently when `io` is unavailable, so delivery either
happens (`ok = true`) or is dropped (`ok = false`); the state of the handler
and response are computed before and independently of delivery. -/
def runPatchWithTransport (ok : Bool) (db : List Order) (id : Nat) (s : Status) :
    List Order × PatchResult × List Msg :=
  let r := patchStatus db id s
  (r.1, r.2.1, if ok then r.2.2 else [])

/-- same wrapper for `POST /api/orders`. -/
def runCreateWithTransport (ok : Bool) (st : AppState) (customerName : String)
    (items : List ReqItem) (newId now : Nat) :
    AppState × Except CreateError CreateResponse × List Msg :=
  let r := createOrder st customerName items newId now
  (r.1, r.2.1, if ok then r.2.2 else [])

/-- lookup of the entry of an order in a `queueData` payload. -/
def entryFor (entries : List QueueEntry) (oid : Nat) : Option QueueEntry :=
  entries.find? (fun e => e.orderId == oid)

/-- the status/position a single published message asserts about a given
order: an entry of a `queue:update` / `kitchen:queue` list payload, or the
body of a `queue:position` message addressed to that order. -/
def reports (m : Msg) (oid : Nat) : Option (Status × Nat) :=
  match m.payload with
  | Payload.queueUpdate es => (entryFor es oid).map (fun e => (e.status, e.queuePosition))
  | Payload.kitchenQueue es => (entryFor es oid).map (fun e => (e.status, e.queuePosition))
  | Payload.queuePosition oid2 s p => if oid2 == oid then some (s, p) else none
  | Payload.orderReady _ => none

/-- strict version of the ascending sort key. -/
def keyLT (a b : Order) : Prop := a.createdAt < b.createdAt

/-! ### Helper lemmas -/

theorem buildQueue_map_pos (l : List Order) :
    ∀ n, (buildQueue n l).map QueueEntry.queuePosition = List.range' n l.length := by
  induction l with
  | nil => intro n; rfl
  | cons o rest ih =>
    intro n
    simp [buildQueue, List.range', ih (n + 1)]

theorem buildQueue_length (l : List Order) : ∀ n, (buildQueue n l).length = l.length := by
  induction l with
  | nil => intro n; rfl
  | cons o rest ih => intro n; simp [buildQueue, ih (n + 1)]

theorem buildQueue_mem {e : QueueEntry} :
    ∀ {l : List Order} {n : Nat}, e ∈ buildQueue n l →
      ∃ i : Fin l.length,
        e = ⟨(l.get i).id, (l.get i).status, (l.get i).customerName, n + i.val⟩ := by
  intro l
  induction l with
  | nil => intro n h; exact absurd h (by simp [buildQueue])
  | cons o rest ih =>
    intro n h
    rcases List.mem_cons.mp h with h0 | h1
    · exact ⟨⟨0, Nat.succ_pos _⟩, by simpa using h0⟩
    · rcases ih h1 with ⟨i, hi⟩
      refine ⟨⟨i.val + 1, Nat.succ_lt_succ i.isLt⟩, ?_⟩
      simpa [Nat.add_assoc, Nat.add_comm 1 i.val] using hi

theorem buildQueue_exists {o : Order} :
    ∀ {l : List Order} {n : Nat}, o ∈ l →
      ∃ e ∈ buildQueue n l,
        e.orderId = o.id ∧ e.status = o.status ∧ e.customerName = o.customerName := by
  intro l
  induction l with
  | nil => intro n h; exact absurd h (by simp)
  | cons a rest ih =>
    intro n h
    rcases List.mem_cons.mp h with h0 | h1
    · subst h0; exact ⟨_, List.mem_cons_self _ _, rfl, rfl, rfl⟩
    · rcases ih (n := n + 1) h1 with ⟨e, he, hprop⟩
      exact ⟨e, List.mem_cons_of_mem _ he, hprop⟩

theorem countP_lt_get :
    ∀ (l : List Order), l.Pairwise keyLT → ∀ (i : Fin l.length),
      (l.filter (fun x => x.createdAt < (l.get i).createdAt)).length = i.val := by
  intro l
  induction l with
  | nil => intro _ i; exact absurd i.isLt (by simp)
  | cons a rest ih =>
    intro hp i
    rcases List.pairwise_cons.mp hp with ⟨ha, hrest⟩
    match i with
    | ⟨0, _⟩ =>
      have : (a :: rest).filter (fun x => x.createdAt < a.createdAt) = [] := by
        rw [List.filter_eq_nil_iff]
        intro x hx
        rcases List.mem_cons.mp hx with h0 | h1
        · subst h0; simp
        · have := ha x h1
          simp only [keyLT] at this
          simp [Nat.not_lt.mpr (Nat.le_of_lt this)]
      simpa [List.get] using congrArg List.length this
    | ⟨j + 1, hj⟩ =>
      have hjlt : j < rest.length := Nat.lt_of_succ_lt_succ hj
      have hb : rest[j] ∈ rest := List.getElem_mem hjlt
      have halt : a.createdAt < rest[j].createdAt := ha _ hb
      have hget : ((a :: rest).get ⟨j + 1, hj⟩) = rest[j] := rfl
      have hstep : (a :: rest).filter
          (fun x => x.createdAt < ((a :: rest).get ⟨j + 1, hj⟩).createdAt) =
          a :: rest.filter (fun x => x.createdAt < rest[j].createdAt) := by
        rw [hget]
        simp [List.filter_cons, halt]
      rw [hstep]
      have hih := ih hrest ⟨j, hjlt⟩
      simpa using hih

theorem activeOrders_perm (db : List Order) : (activeOrders db).Perm (db.filter isActive) :=
  List.perm_insertionSort keyLE (db.filter isActive)

theorem activeOrders_sorted (db : List Order) : (activeOrders db).Pairwise keyLE :=
  List.sorted_insertionSort keyLE (db.filter isActive)

theorem activeOrders_pairwise_keyLT (db : List Order)
    (hk : db.Pairwise (fun a b => a.createdAt ≠ b.createdAt)) :
    (activeOrders db).Pairwise keyLT := by
  have hne : (db.filter isActive).Pairwise (fun a b => a.createdAt ≠ b.createdAt) :=
    hk.sublist (List.filter_sublist db)
  have hne2 : (activeOrders db).Pairwise (fun a b => a.createdAt ≠ b.createdAt) :=
    ((activeOrders_perm db).pairwise_iff (fun h => h.symm)).mpr hne
  have := (activeOrders_sorted db).and hne2
  exact this.imp (fun h => Nat.lt_of_le_of_ne h.1 h.2)

theorem getQueuePosition_eq_active (db : List Order) (o : Order) :
    getQueuePosition db o =
      ((activeOrders db).filter (fun x => x.createdAt < o.createdAt)).length + 1 := by
  unfold getQueuePosition
  have h1 : (db.filter (fun x => isActive x && x.createdAt < o.createdAt)).length =
      ((db.filter isActive).filter (fun x => x.createdAt < o.createdAt)).length := by
    rw [List.filter_filter]
    congr 1
    apply List.filter_congr
    intro x _
    simp [Bool.and_comm]
  have h2 : ((db.filter isActive).filter (fun x => x.createdAt < o.createdAt)).length =
      ((activeOrders db).filter (fun x => x.createdAt < o.createdAt)).length :=
    ((activeOrders_perm db).filter _).length_eq.symm
  rw [h1, h2]

theorem mem_activeOrders_iff {db : List Order} {o : Order} :
    o ∈ activeOrders db ↔ o ∈ db ∧ isActive o = true := by
  rw [(activeOrders_perm db).mem_iff, List.mem_filter]

theorem queueData_entry_spec (db : List Order)
    (hk : db.Pairwise (fun a b => a.createdAt ≠ b.createdAt)) :
    ∀ e ∈ queueData db, ∃ o, o ∈ db ∧ isActive o = true ∧ e.orderId = o.id ∧
      e.queuePosition = getQueuePosition db o := by
  intro e he
  rcases buildQueue_mem he with ⟨i, hi⟩
  have hmem : (activeOrders db).get i ∈ activeOrders db :=
    (activeOrders db).get_mem i.val i.isLt
  rcases mem_activeOrders_iff.mp hmem with ⟨hdb, hact⟩
  refine ⟨(activeOrders db).get i, hdb, hact, by rw [hi], ?_⟩
  have hcount := countP_lt_get (activeOrders db) (activeOrders_pairwise_keyLT db hk) i
  rw [hi, getQueuePosition_eq_active db ((activeOrders db).get i)]
  simp only [hcount]
  exact Nat.add_comm 1 i.val

theorem queueData_sound (db : List Order) :
    ∀ e ∈ queueData db, ∃ o, o ∈ db ∧ isActive o = true ∧ e.orderId = o.id ∧
      e.status = o.status ∧ e.customerName = o.customerName := by
  intro e he
  rcases buildQueue_mem he with ⟨i, hi⟩
  have hmem : (activeOrders db).get i ∈ activeOrders db :=
    (activeOrders db).get_mem i.val i.isLt
  rcases mem_activeOrders_iff.mp hmem with ⟨hdb, hact⟩
  exact ⟨(activeOrders db).get i, hdb, hact, by rw [hi], by rw [hi], by rw [hi]⟩

theorem queueData_complete (db : List Order) :
    ∀ o ∈ db, isActive o = true →
      ∃ e ∈ queueData db, e.orderId = o.id ∧ e.status = o.status ∧
        e.customerName = o.customerName := by
  intro o hdb hact
  exact buildQueue_exists (mem_activeOrders_iff.mpr ⟨hdb, hact⟩)

theorem buildQueue_pairwise_ids {l : List Order}
    (h : l.Pairwise (fun a b => a.id ≠ b.id)) :
    ∀ n, (buildQueue n l).Pairwise (fun a b => a.orderId ≠ b.orderId) := by
  induction l with
  | nil => intro n; simp [buildQueue]
  | cons o rest ih =>
    rcases List.pairwise_cons.mp h with ⟨ho, hrest⟩
    intro n
    rw [buildQueue, List.pairwise_cons]
    refine ⟨?_, ih hrest (n + 1)⟩
    intro e he
    rcases buildQueue_mem he with ⟨i, hi⟩
    have : rest.get i ∈ rest := rest.get_mem i.val i.isLt
    simpa [hi] using ho _ this

theorem queueData_pairwise_ids (db : List Order)
    (hid : db.Pairwise (fun a b => a.id ≠ b.id)) :
    (queueData db).Pairwise (fun a b => a.orderId ≠ b.orderId) := by
  have h1 : (db.filter isActive).Pairwise (fun a b => a.id ≠ b.id) :=
    hid.sublist (List.filter_sublist db)
  have h2 : (activeOrders db).Pairwise (fun a b => a.id ≠ b.id) :=
    ((activeOrders_perm db).pairwise_iff (fun h => h.symm)).mpr h1
  exact buildQueue_pairwise_ids h2 1

theorem entryFor_eq_of_mem {es : List QueueEntry}
    (h : es.Pairwise (fun a b => a.orderId ≠ b.orderId)) {e : QueueEntry}
    (he : e ∈ es) : entryFor es e.orderId = some e := by
  induction es with
  | nil => exact absurd he (by simp)
  | cons a rest ih =>
    rcases List.pairwise_cons.mp h with ⟨ha, hrest⟩
    rcases List.mem_cons.mp he with h0 | h1
    · subst h0; simp [entryFor, List.find?]
    · have hne : a.orderId ≠ e.orderId := ha e h1
      have : (a.orderId == e.orderId) = false := by
        simpa using hne
      simpa [entryFor, List.find?, this] using ih hrest h1

theorem id_injective_of_pairwise {db : List Order}
    (hid : db.Pairwise (fun a b => a.id ≠ b.id)) :
    ∀ {a b : Order}, a ∈ db → b ∈ db → a.id = b.id → a = b := by
  induction db with
  | nil => intro a b ha; exact absurd ha (by simp)
  | cons c rest ih =>
    rcases List.pairwise_cons.mp hid with ⟨hc, hrest⟩
    intro a b ha hb heq
    rcases List.mem_cons.mp ha with ha0 | ha1 <;> rcases List.mem_cons.mp hb with hb0 | hb1
    · rw [ha0, hb0]
    · subst ha0; exact absurd heq (hc b hb1)
    · subst hb0; exact absurd heq.symm (hc a ha1)
    · exact ih hrest ha1 hb1 heq

theorem mem_emitQueueUpdate {db : List Order} {m : Msg} :
    m ∈ emitQueueUpdate db ↔
      m = ⟨Channel.global, Payload.queueUpdate (queueData db)⟩ ∨
      (∃ e ∈ queueData db,
        m = ⟨Channel.orderRoom e.orderId,
             Payload.queuePosition e.orderId e.status e.queuePosition⟩) ∨
      m = ⟨Channel.kitchen, Payload.kitchenQueue (queueData db)⟩ := by
  simp only [emitQueueUpdate, List.mem_cons, List.mem_append, List.mem_map,
    List.mem_singleton, List.not_mem_nil, or_false]
  constructor
  · rintro (h | ⟨e, he, hm⟩ | h)
    · exact Or.inl h
    · exact Or.inr (Or.inl ⟨e, he, hm.symm⟩)
    · exact Or.inr (Or.inr h)
  · rintro (h | ⟨e, he, hm⟩ | h)
    · exact Or.inl h
    · exact Or.inr (Or.inl ⟨e, he, hm.symm⟩)
    · exact Or.inr (Or.inr h)

theorem reports_canonical (db : List Order)
    (hid : db.Pairwise (fun a b => a.id ≠ b.id)) :
    ∀ m ∈ emitQueueUpdate db, ∀ oid r, reports m oid = some r →
      (entryFor (queueData db) oid).map (fun e => (e.status, e.queuePosition)) = some r := by
  intro m hm oid r hr
  rcases mem_emitQueueUpdate.mp hm with h | ⟨e, he, hme⟩ | h
  · subst h; exact hr
  · subst hme
    by_cases hb : e.orderId = oid
    · subst hb
      have hcan : entryFor (queueData db) e.orderId = some e :=
        entryFor_eq_of_mem (queueData_pairwise_ids db hid) he
      have hre : r = (e.status, e.queuePosition) := by
        simpa [reports] using hr.symm
      rw [hcan, hre]
      rfl
    · have : (e.orderId == oid) = false := by simpa using hb
      simp [reports, this] at hr
  · subst h; exact hr

theorem buildOrderItems_ok :
    ∀ {items : List ReqItem} {menu : List MenuItem} {os : List OrderItem} {t : Nat},
      buildOrderItems menu items = Except.ok (os, t) →
      t = (os.map (fun li => li.price * li.quantity)).sum ∧
      ∀ li ∈ os, ∃ m, m ∈ menu ∧ m.id = li.menuItemId ∧ li.name = m.name ∧
        li.price = m.price ∧ m.isAvailable = true := by
  intro items
  induction items with
  | nil =>
    intro menu os t h
    simp only [buildOrderItems, Except.ok.injEq, Prod.mk.injEq] at h
    rcases h with ⟨hos, ht⟩
    subst hos; subst ht
    exact ⟨rfl, by intro li hli; exact absurd hli (by simp)⟩
  | cons it rest ih =>
    intro menu os t h
    rw [buildOrderItems] at h
    cases hf : findMenuItem menu it.menuItemId with
    | none => simp [hf] at h
    | some m =>
      simp only [hf] at h
      by_cases hm : m.isAvailable = true
      · rw [if_pos hm] at h
        cases hb : buildOrderItems menu rest with
        | error e => simp [hb] at h
        | ok p =>
          rcases p with ⟨os2, t2⟩
          simp only [hb, Except.ok.injEq, Prod.mk.injEq] at h
          rcases h with ⟨hos, ht⟩
          subst hos; subst ht
          rcases ih hb with ⟨hsum, hsnap⟩
          constructor
          · simp [hsum, Nat.add_comm]
          · intro li hli
            rcases List.mem_cons.mp hli with h0 | h1
            · subst h0
              exact ⟨m, List.mem_of_find?_eq_some hf, rfl, rfl, rfl, hm⟩
            · exact hsnap li h1
      · rw [if_neg hm] at h
        exact absurd h (by simp)

theorem buildOrderItems_error_of_bad :
    ∀ {items : List ReqItem} {menu : List MenuItem},
      (∃ it ∈ items, findMenuItem menu it.menuItemId = none ∨
        ∃ m, findMenuItem menu it.menuItemId = some m ∧ m.isAvailable = false) →
      ∃ e, buildOrderItems menu items = Except.error e := by
  intro items
  induction items with
  | nil =>
    intro menu h
    rcases h with ⟨it, hit, _⟩
    exact absurd hit (by simp)
  | cons it0 rest ih =>
    intro menu h
    cases hf : findMenuItem menu it0.menuItemId with
    | none => exact ⟨CreateError.itemNotFound it0.menuItemId, by simp [buildOrderItems, hf]⟩
    | some m =>
      cases hm : m.isAvailable with
      | false => exact ⟨CreateError.unavailable m.name, by simp [buildOrderItems, hf, hm]⟩
      | true =>
        have hbad : ∃ it ∈ rest, findMenuItem menu it.menuItemId = none ∨
            ∃ m2, findMenuItem menu it.menuItemId = some m2 ∧ m2.isAvailable = false := by
          rcases h with ⟨it, hit, hcase⟩
          rcases List.mem_cons.mp hit with h0 | h1
          · subst h0
            rcases hcase with hnone | ⟨m2, hm2, hav⟩
            · rw [hf] at hnone; exact absurd hnone (by simp)
            · rw [hf] at hm2
              have hmm : m2 = m := by injection hm2 with h2; exact h2.symm ▸ rfl
              subst hmm
              rw [hm] at hav
              exact absurd hav (by simp)
          · exact ⟨it, h1, hcase⟩
        rcases ih hbad with ⟨e, he⟩
        exact ⟨e, by simp [buildOrderItems, hf, hm, he]⟩

theorem getQueuePosition_formula (db : List Order) (o : Order) :
    getQueuePosition db o =
      1 + ((db.filter isActive).filter (fun x => x.createdAt < o.createdAt)).length := by
  rw [getQueuePosition_eq_active, ((activeOrders_perm db).filter _).length_eq]
  exact Nat.add_comm _ 1

theorem createOrder_ok_shape {st : AppState} {name : String} {items : List ReqItem}
    {newId now : Nat} {st2 : AppState} {resp : CreateResponse} {msgs : List Msg}
    (hc : createOrder st name items newId now = (st2, Except.ok resp, msgs)) :
    ∃ orderItems totalAmount,
      buildOrderItems st.menu items = Except.ok (orderItems, totalAmount)
      ∧ resp.order = ⟨newId, none, name, orderItems, totalAmount, Status.pending, now⟩
      ∧ st2.orders = st.orders ++ [resp.order]
      ∧ st2.menu = st.menu := by
  unfold createOrder at hc
  split at hc
  · exact absurd hc (by simp)
  split at hc
  · exact absurd hc (by simp)
  split at hc
  next e heq => exact absurd hc (by simp)
  next orderItems totalAmount heq =>
    simp only [Prod.mk.injEq, Except.ok.injEq] at hc
    rcases hc with ⟨hst, hresp, _⟩
    refine ⟨orderItems, totalAmount, heq, ?_, ?_, ?_⟩
    · rw [← hresp]
    · rw [← hst, ← hresp]
    · rw [← hst]

theorem createOrder_error_shape {st : AppState} {name : String} {items : List ReqItem}
    {newId now : Nat} {st2 : AppState} {e : CreateError} {msgs : List Msg}
    (hc : createOrder st name items newId now = (st2, Except.error e, msgs)) :
    st2 = st ∧ msgs = [] := by
  unfold createOrder at hc
  split at hc
  · simp only [Prod.mk.injEq] at hc
    exact ⟨hc.1.symm, hc.2.2.symm⟩
  split at hc
  · simp only [Prod.mk.injEq] at hc
    exact ⟨hc.1.symm, hc.2.2.symm⟩
  split at hc
  next e2 heq =>
    simp only [Prod.mk.injEq] at hc
    exact ⟨hc.1.symm, hc.2.2.symm⟩
  next orderItems totalAmount heq =>
    exact absurd hc (by simp)

theorem createOrderFromCart_ok_shape {st : AppState} {uid newId now : Nat}
    {st2 : AppState} {resp : CreateResponse} {msgs : List Msg}
    (hc : createOrderFromCart st uid newId now = (st2, Except.ok resp, msgs)) :
    ∃ user cart orderItems totalAmount,
      st.users.find? (fun u => u.id == uid) = some user
      ∧ st.carts.find? (fun c => c.userId == uid) = some cart
      ∧ buildOrderItems st.menu cart.items = Except.ok (orderItems, totalAmount)
      ∧ resp.order
          = ⟨newId, some user.id, user.name, orderItems, totalAmount, Status.pending, now⟩
      ∧ st2.orders = st.orders ++ [resp.order]
      ∧ st2.menu = st.menu := by
  unfold createOrderFromCart at hc
  split at hc
  next hu => exact absurd hc (by simp)
  next user hu =>
    split at hc
    next hcart => exact absurd hc (by simp)
    next cart hcart =>
      split at hc
      · exact absurd hc (by simp)
      split at hc
      next e heq => exact absurd hc (by simp)
      next orderItems totalAmount heq =>
        simp only [Prod.mk.injEq, Except.ok.injEq] at hc
        rcases hc with ⟨hst, hresp, _⟩
        refine ⟨user, cart, orderItems, totalAmount, hu, hcart, heq, ?_, ?_, ?_⟩
        · rw [← hresp]
        · rw [← hst, ← hresp]
        · rw [← hst]

theorem createOrderFromCart_error_shape {st : AppState} {uid newId now : Nat}
    {st2 : AppState} {e : CreateError} {msgs : List Msg}
    (hc : createOrderFromCart st uid newId now = (st2, Except.error e, msgs)) :
    st2 = st ∧ msgs = [] := by
  unfold createOrderFromCart at hc
  split at hc
  next hu =>
    simp only [Prod.mk.injEq] at hc
    exact ⟨hc.1.symm, hc.2.2.symm⟩
  next user hu =>
    split at hc
    next hcart =>
      simp only [Prod.mk.injEq] at hc
      exact ⟨hc.1.symm, hc.2.2.symm⟩
    next cart hcart =>
      split at hc
      · simp only [Prod.mk.injEq] at hc
        exact ⟨hc.1.symm, hc.2.2.symm⟩
      split at hc
      next e2 heq =>
        simp only [Prod.mk.injEq] at hc
        exact ⟨hc.1.symm, hc.2.2.symm⟩
      next orderItems totalAmount heq =>
        exact absurd hc (by simp)

/-! ### Concrete fixtures used by witnesses and counterexamples -/

/-- one-item menu fixture. -/
def menu0 : List MenuItem := [⟨1, "Pizza", 50, true⟩]

/-- empty initial state over `menu0`. -/
def st0 : AppState := ⟨menu0, [], [], []⟩

/-- the order produced by `createOrder st0 "A" [⟨1, 1⟩] 1 1000`. -/
def oA : Order := ⟨1, none, "A", [⟨1, "Pizza", 1, 50⟩], 50, Status.pending, 1000⟩

/-- a second order created in the same clock instant (`createdAt = 1000`). -/
def oB : Order := ⟨2, none, "B", [⟨1, "Pizza", 1, 50⟩], 50, Status.pending, 1000⟩

/-- small collection with distinct creation keys and one inactive order. -/
def dbW : List Order :=
  [⟨1, none, "A", [], 0, Status.pending, 300⟩,
   ⟨2, none, "B", [], 0, Status.preparing, 100⟩,
   ⟨3, none, "C", [], 0, Status.ready, 200⟩]

/-- collection with one preparing order and one pending order, used to
exercise the transition into `ready`. -/
def db4 : List Order :=
  [⟨1, none, "A", [], 0, Status.preparing, 100⟩,
   ⟨2, none, "B", [], 0, Status.pending, 200⟩]

/-- collection with one ready order and one pending order. -/
def dbC : List Order :=
  [⟨1, none, "A", [], 0, Status.ready, 100⟩,
   ⟨2, none, "B", [], 0, Status.pending, 200⟩]

/-- the ready order of `dbC`. -/
def oC : Order := ⟨1, none, "A", [], 0, Status.ready, 100⟩

/-! ### Claims -/

/-- C1: the claim says `creationKey` values are globally unique and totally
ordered, with no two orders — even two created within the same clock
instant — ever comparing equal.  The code has no sequencer: the only
ordering key is the Mongo `createdAt` timestamp, so two orders created in
the same millisecond receive equal keys and tie.  Evaluated here: creating
two orders at the same clock value `1000` yields two distinct orders with
equal `createdAt` and the same queue position, so sorting by the key cannot
reproduce the call order. -/
theorem creationKey_collision :
    ((createOrder (createOrder st0 "A" [⟨1, 1⟩] 1 1000).1 "B" [⟨1, 1⟩] 2 1000).1).orders
      = [oA, oB]
    ∧ oA ≠ oB
    ∧ oA.createdAt = oB.createdAt
    ∧ getQueuePosition [oA, oB] oA = getQueuePosition [oA, oB] oB := by
  refine ⟨by decide, by decide, rfl, rfl⟩

/-- C9: a failing or unavailable realtime transport never changes the
state or the response of a mutation: the wrapped handlers return the same
collection and the same HTTP result whether delivery happens or not. -/
theorem broadcast_failure_isolated (ok1 ok2 : Bool) (db : List Order) (id : Nat)
    (s : Status) (st : AppState) (n : String) (items : List ReqItem) (newId now : Nat) :
    (runPatchWithTransport ok1 db id s).1 = (runPatchWithTransport ok2 db id s).1
    ∧ (runPatchWithTransport ok1 db id s).2.1 = (runPatchWithTransport ok2 db id s).2.1
    ∧ (runCreateWithTransport ok1 st n items newId now).1
        = (runCreateWithTransport ok2 st n items newId now).1
    ∧ (runCreateWithTransport ok1 st n items newId now).2.1
        = (runCreateWithTransport ok2 st n items newId now).2.1 :=
  ⟨rfl, rfl, rfl, rfl⟩

/-- C3: a status transition succeeds exactly when the requested status is
in `VALID_TRANSITIONS[current]`; on success the status of the order is set to
the requested value and the updated order is returned, otherwise the
handler fails naming the current status and the allowed set and leaves the
collection unchanged. -/
theorem transition_correct (db : List Order) (id : Nat) (s : Status) (o : Order)
    (hf : findOrder db id = some o) :
    (s ∈ VALID_TRANSITIONS o.status →
      (patchStatus db id s).2.1 = PatchResult.ok { o with status := s }
      ∧ (patchStatus db id s).1 = updateOrderStatus db id s)
    ∧ (s ∉ VALID_TRANSITIONS o.status →
      (patchStatus db id s).2.1
        = PatchResult.invalidTransition o.status (VALID_TRANSITIONS o.status)
      ∧ (patchStatus db id s).1 = db) := by
  unfold patchStatus
  rw [hf]
  by_cases h : s ∈ VALID_TRANSITIONS o.status <;> simp [h]

/-- C3 witness: a pending order moves to preparing. -/
theorem transition_correct_witness :
    (patchStatus dbC 2 Status.preparing).2.1
      = PatchResult.ok ⟨2, none, "B", [], 0, Status.preparing, 200⟩ :=
  ((transition_correct dbC 2 Status.preparing ⟨2, none, "B", [], 0, Status.pending, 200⟩
    (by decide)).1 (by decide)).1

/-- C4: the claim says a transition into `ready` publishes the one-shot
ready notification to the per-order channel of that order only, with no message
to the global or kitchen channels beyond the regular queue snapshot.  In
the code `emitOrderReady` additionally executes
an empty global `queue:update` emit, publishing an empty queue list on the
global channel even though the active queue is non-empty — contradicting
both the claim and the documentation the module itself gives of `queue:update` as
carrying the full active queue.  Evaluated at a concrete transition. -/
theorem emitOrderReady_leaks_global :
    (patchStatus db4 1 Status.ready).2.1
      = PatchResult.ok ⟨1, none, "A", [], 0, Status.ready, 100⟩
    ∧ (⟨Channel.global, Payload.queueUpdate []⟩ : Msg) ∈ emitOrderReady 1
    ∧ (patchStatus db4 1 Status.ready).2.2
      = emitOrderReady 1 ++ emitQueueUpdate (updateOrderStatus db4 1 Status.ready)
    ∧ queueData (updateOrderStatus db4 1 Status.ready)
      = [⟨2, Status.pending, "B", 1⟩] := by
  refine ⟨by decide, by decide, by decide, by decide⟩

/-- C2: when creation keys are pairwise distinct (the well-definedness
premise the spec derives from §4.1), the queue position of an active order
equals one plus the number of active orders with a strictly smaller key,
snapshot positions are exactly the ascending sequence `1..|O|`, and every
position of every snapshot entry agrees with that rank formula. -/
theorem queue_position_correct (db : List Order)
    (hk : db.Pairwise (fun a b => a.createdAt ≠ b.createdAt)) :
    (∀ o ∈ db, isActive o = true →
      getQueuePosition db o =
        1 + ((db.filter isActive).filter (fun x => x.createdAt < o.createdAt)).length)
    ∧ (queueData db).map QueueEntry.queuePosition
        = List.range' 1 (db.filter isActive).length
    ∧ (∀ e ∈ queueData db, ∃ o, o ∈ db ∧ isActive o = true ∧ e.orderId = o.id ∧
        e.queuePosition = getQueuePosition db o) := by
  refine ⟨fun o _ _ => getQueuePosition_formula db o, ?_, queueData_entry_spec db hk⟩
  rw [queueData, buildQueue_map_pos, (activeOrders_perm db).length_eq]

/-- C2 witness: positions over `dbW` (distinct keys, two active orders). -/
theorem queue_position_correct_witness :
    (queueData dbW).map QueueEntry.queuePosition
      = List.range' 1 (dbW.filter isActive).length :=
  (queue_position_correct dbW (by decide)).2.1

/-- C5: one broadcast cycle of `emitQueueUpdate` publishes the same
`queueData` snapshot on the global and kitchen channels, that snapshot
lists exactly the active orders with their stored status in ascending rank
order `1..|O|`, and any two messages of the cycle that mention the same
order report identical status and position. -/
theorem broadcast_snapshot_consistent (db : List Order)
    (hid : db.Pairwise (fun a b => a.id ≠ b.id)) :
    (⟨Channel.global, Payload.queueUpdate (queueData db)⟩ : Msg) ∈ emitQueueUpdate db
    ∧ (⟨Channel.kitchen, Payload.kitchenQueue (queueData db)⟩ : Msg) ∈ emitQueueUpdate db
    ∧ (∀ o ∈ db, isActive o = true → ∃ e ∈ queueData db, e.orderId = o.id ∧
        e.status = o.status ∧ e.customerName = o.customerName)
    ∧ (∀ e ∈ queueData db, ∃ o, o ∈ db ∧ isActive o = true ∧ e.orderId = o.id ∧
        e.status = o.status ∧ e.customerName = o.customerName)
    ∧ (queueData db).map QueueEntry.queuePosition
        = List.range' 1 (db.filter isActive).length
    ∧ (∀ m1 ∈ emitQueueUpdate db, ∀ m2 ∈ emitQueueUpdate db, ∀ oid r1 r2,
        reports m1 oid = some r1 → reports m2 oid = some r2 → r1 = r2) := by
  refine ⟨?_, ?_, queueData_complete db, queueData_sound db, ?_, ?_⟩
  · exact mem_emitQueueUpdate.mpr (Or.inl rfl)
  · exact mem_emitQueueUpdate.mpr (Or.inr (Or.inr rfl))
  · rw [queueData, buildQueue_map_pos, (activeOrders_perm db).length_eq]
  · intro m1 hm1 m2 hm2 oid r1 r2 h1 h2
    have hc1 := reports_canonical db hid m1 hm1 oid r1 h1
    have hc2 := reports_canonical db hid m2 hm2 oid r2 h2
    have := hc1.symm.trans hc2
    injection this

/-- C5 witness: the kitchen payload of the broadcast of `dbW` is in the cycle. -/
theorem broadcast_snapshot_consistent_witness :
    (⟨Channel.kitchen, Payload.kitchenQueue (queueData dbW)⟩ : Msg) ∈ emitQueueUpdate dbW :=
  (broadcast_snapshot_consistent dbW (by decide)).2.1

/-- C6: an order whose status has left `{pending, preparing}` appears in no
queue snapshot (no `queueData` entry carries its id), and fetching it by id
reports its queue position as `none`, never a number. -/
theorem completed_leaves_queue (db : List Order)
    (hid : db.Pairwise (fun a b => a.id ≠ b.id)) :
    (∀ o ∈ db, isActive o = false → ∀ e ∈ queueData db, e.orderId ≠ o.id)
    ∧ (∀ id o p, getOrderById db id = some (o, p) → isActive o = false → p = none) := by
  constructor
  · intro o ho hia e he heq
    rcases queueData_sound db e he with ⟨o2, ho2, hact, hid2, _, _⟩
    have : o2 = o := id_injective_of_pairwise hid ho2 ho (by rw [← hid2, heq])
    rw [this] at hact
    rw [hact] at hia
    exact absurd hia (by simp)
  · intro id o p h hia
    unfold getOrderById at h
    cases hfind : findOrder db id with
    | none => rw [hfind] at h; exact absurd h (by simp)
    | some o2 =>
      rw [hfind] at h
      simp only [Option.some.injEq, Prod.mk.injEq] at h
      rcases h with ⟨ho2, hp⟩
      subst ho2
      rw [hia] at hp
      simpa using hp.symm

/-- C6 witness: the ready order of `dbC` has no entry in the snapshot. -/
theorem completed_leaves_queue_witness :
    (⟨2, Status.pending, "B", 1⟩ : QueueEntry).orderId ≠ oC.id :=
  (completed_leaves_queue dbC (by decide)).1 oC (by decide) (by decide)
    ⟨2, Status.pending, "B", 1⟩ (by decide)

/-- C7: every created order (direct or from cart) has `totalAmount` equal
to the sum of `quantity × price` over its line items, each line item is a
name/price snapshot of a catalog entry read at creation, the order is
stored, and later menu updates or deletions leave the stored order
collection — hence the snapshot and total — untouched. -/
theorem price_snapshot_immutable (st : AppState) (name : String) (items : List ReqItem)
    (newId now : Nat) (st2 : AppState) (resp : CreateResponse) (msgs : List Msg)
    (hc : createOrder st name items newId now = (st2, Except.ok resp, msgs))
    (stB : AppState) (uid newIdB nowB : Nat) (st2B : AppState) (respB : CreateResponse)
    (msgsB : List Msg)
    (hcB : createOrderFromCart stB uid newIdB nowB = (st2B, Except.ok respB, msgsB)) :
    (resp.order.totalAmount = (resp.order.items.map (fun li => li.price * li.quantity)).sum
     ∧ (∀ li ∈ resp.order.items, ∃ m, m ∈ st.menu ∧ m.id = li.menuItemId ∧
          li.name = m.name ∧ li.price = m.price)
     ∧ resp.order ∈ st2.orders
     ∧ (∀ mid u, (updateMenuItem st2 mid u).orders = st2.orders)
     ∧ (∀ mid, (deleteMenuItem st2 mid).orders = st2.orders))
    ∧ (respB.order.totalAmount
         = (respB.order.items.map (fun li => li.price * li.quantity)).sum
     ∧ (∀ li ∈ respB.order.items, ∃ m, m ∈ stB.menu ∧ m.id = li.menuItemId ∧
          li.name = m.name ∧ li.price = m.price)
     ∧ respB.order ∈ st2B.orders
     ∧ (∀ mid u, (updateMenuItem st2B mid u).orders = st2B.orders)
     ∧ (∀ mid, (deleteMenuItem st2B mid).orders = st2B.orders)) := by
  constructor
  · rcases createOrder_ok_shape hc with ⟨os, t, heq, hord, hor, _⟩
    rcases buildOrderItems_ok heq with ⟨hsum, hsnap⟩
    refine ⟨?_, ?_, ?_, fun mid u => rfl, fun mid => rfl⟩
    · rw [hord]; exact hsum
    · rw [hord]
      intro li hli
      rcases hsnap li hli with ⟨m, hm, hid, hname, hprice, _⟩
      exact ⟨m, hm, hid, hname, hprice⟩
    · rw [hor]; exact List.mem_append_right _ (List.mem_singleton.mpr rfl)
  · rcases createOrderFromCart_ok_shape hcB with ⟨user, cart, os, t, _, _, heq, hord, hor, _⟩
    rcases buildOrderItems_ok heq with ⟨hsum, hsnap⟩
    refine ⟨?_, ?_, ?_, fun mid u => rfl, fun mid => rfl⟩
    · rw [hord]; exact hsum
    · rw [hord]
      intro li hli
      rcases hsnap li hli with ⟨m, hm, hid, hname, hprice, _⟩
      exact ⟨m, hm, hid, hname, hprice⟩
    · rw [hor]; exact List.mem_append_right _ (List.mem_singleton.mpr rfl)

/-- C7 witness: concrete creation from `st0` with the fixture menu, both
directly and from a cart. -/
theorem price_snapshot_immutable_witness :
    oA.totalAmount = (oA.items.map (fun li => li.price * li.quantity)).sum :=
  (price_snapshot_immutable st0 "A" [⟨1, 1⟩] 1 1000
      ⟨menu0, [oA], [], []⟩
      ⟨oA, 1⟩ (emitQueueUpdate [oA]) rfl
      ⟨menu0, [], [⟨7, [⟨1, 2⟩]⟩], [⟨7, "Bea"⟩]⟩ 7 9 2000
      ⟨menu0, [⟨9, some 7, "Bea", [⟨1, "Pizza", 2, 50⟩], 100, Status.pending, 2000⟩],
        [⟨7, []⟩], [⟨7, "Bea"⟩]⟩
      ⟨⟨9, some 7, "Bea", [⟨1, "Pizza", 2, 50⟩], 100, Status.pending, 2000⟩, 1⟩
      (emitQueueUpdate [⟨9, some 7, "Bea", [⟨1, "Pizza", 2, 50⟩], 100, Status.pending, 2000⟩])
      rfl).1.1

/-- C8: order creation is rejected with no order created whenever the line
item list is empty (including an empty or missing cart in the from-cart
flow) or any referenced catalog entry is missing or unavailable; every
rejection leaves the state unchanged, so there are no partial orders. -/
theorem order_creation_rejections (st : AppState) (name : String) (items : List ReqItem)
    (newId now uid : Nat) :
    (items = [] → createOrder st name items newId now
        = (st, Except.error CreateError.noItems, []))
    ∧ (∀ st2 e msgs, createOrder st name items newId now = (st2, Except.error e, msgs) →
        st2 = st ∧ msgs = [])
    ∧ ((∃ it ∈ items, findMenuItem st.menu it.menuItemId = none ∨
          ∃ m, findMenuItem st.menu it.menuItemId = some m ∧ m.isAvailable = false) →
        ∃ e st2 msgs, createOrder st name items newId now = (st2, Except.error e, msgs))
    ∧ (∀ u, st.users.find? (fun x => x.id == uid) = some u →
        (∀ c, st.carts.find? (fun c => c.userId == uid) = some c → c.items = [] →
          createOrderFromCart st uid newId now
            = (st, Except.error CreateError.cartEmpty, []))
        ∧ (st.carts.find? (fun c => c.userId == uid) = none →
          createOrderFromCart st uid newId now
            = (st, Except.error CreateError.cartEmpty, [])))
    ∧ (∀ st2 e msgs, createOrderFromCart st uid newId now = (st2, Except.error e, msgs) →
        st2 = st ∧ msgs = [])
    ∧ (∀ u c, st.users.find? (fun x => x.id == uid) = some u →
        st.carts.find? (fun x => x.userId == uid) = some c →
        (∃ it ∈ c.items, findMenuItem st.menu it.menuItemId = none ∨
          ∃ m, findMenuItem st.menu it.menuItemId = some m ∧ m.isAvailable = false) →
        ∃ e st2 msgs, createOrderFromCart st uid newId now
          = (st2, Except.error e, msgs)) := by
  refine ⟨?_, ?_, ?_, ?_, ?_, ?_⟩
  · intro h; subst h; rfl
  · intro st2 e msgs hc; exact createOrder_error_shape hc
  · intro hbad
    by_cases hempty : items.isEmpty
    · exact ⟨CreateError.noItems, st, [], by simp [createOrder, hempty]⟩
    by_cases hq : items.any (fun it => it.quantity == 0)
    · exact ⟨CreateError.badQuantity, st, [], by simp [createOrder, hempty, hq]⟩
    rcases buildOrderItems_error_of_bad hbad with ⟨e, he⟩
    exact ⟨e, st, [], by simp [createOrder, hempty, hq, he]⟩
  · intro u hu
    constructor
    · intro c hcart hempty
      have he : c.items.isEmpty = true := by rw [hempty]; rfl
      simp [createOrderFromCart, hu, hcart, he]
    · intro hcart
      simp [createOrderFromCart, hu, hcart]
  · intro st2 e msgs hc; exact createOrderFromCart_error_shape hc
  · intro u c hu hcart hbad
    by_cases hempty : c.items.isEmpty
    · exact ⟨CreateError.cartEmpty, st, [],
        by simp [createOrderFromCart, hu, hcart, hempty]⟩
    rcases buildOrderItems_error_of_bad hbad with ⟨e, he⟩
    exact ⟨e, st, [], by simp [createOrderFromCart, hu, hcart, hempty, he]⟩

/-- C8 witness: an empty item list and an empty cart are both rejected
leaving the state unchanged, and a cart whose item references an
unavailable menu entry is rejected too. -/
theorem order_creation_rejections_witness :
    (createOrder st0 "A" [] 1 1000 = (st0, Except.error CreateError.noItems, [])
    ∧ createOrderFromCart ⟨menu0, [], [⟨7, []⟩], [⟨7, "Bea"⟩]⟩ 7 1 1000
        = (⟨menu0, [], [⟨7, []⟩], [⟨7, "Bea"⟩]⟩, Except.error CreateError.cartEmpty, []))
    ∧ ∃ e st2 msgs,
        createOrderFromCart
          ⟨[⟨1, "Pizza", 50, false⟩], [], [⟨7, [⟨1, 1⟩]⟩], [⟨7, "Bea"⟩]⟩ 7 1 1000
          = (st2, Except.error e, msgs) :=
  ⟨⟨(order_creation_rejections st0 "A" [] 1 1000 7).1 rfl,
    (((order_creation_rejections ⟨menu0, [], [⟨7, []⟩], [⟨7, "Bea"⟩]⟩ "A" [] 1 1000 7).2.2.2.1
      ⟨7, "Bea"⟩ rfl).1 ⟨7, []⟩ rfl rfl)⟩,
   (order_creation_rejections
      ⟨[⟨1, "Pizza", 50, false⟩], [], [⟨7, [⟨1, 1⟩]⟩], [⟨7, "Bea"⟩]⟩ "A" [] 1 1000 7).2.2.2.2.2
      ⟨7, "Bea"⟩ ⟨7, [⟨1, 1⟩]⟩ rfl rfl
      ⟨⟨1, 1⟩, by simp,
       Or.inr ⟨⟨1, "Pizza", 50, false⟩, rfl, rfl⟩⟩⟩

/-- C10: the staff history listing returns at most 200 orders and the
per-owner listing at most 50 — exactly the first `cap` of the matching
orders sorted by descending creation time, so matches beyond the cap are
silently dropped; every returned order matches the requested filter, and
per-owner results carry a live position only while active. -/
theorem listing_caps (db : List Order) (s : Option Status) (d : Option Nat) (uid : Nat) :
    (orderHistory db s d).length = min 200 (db.filter (historyMatch s d)).length
    ∧ (orderHistory db s d).Pairwise keyGE
    ∧ (∀ o ∈ orderHistory db s d, historyMatch s d o = true)
    ∧ (myOrders db uid s).length
        = min 50 (db.filter (fun o =>
            o.userId == some uid &&
            match s with
            | none => true
            | some s2 => o.status == s2)).length
    ∧ (myOrders db uid s).Pairwise (fun a b => keyGE a.1 b.1)
    ∧ (∀ p ∈ myOrders db uid s, p.1.userId = some uid
        ∧ (isActive p.1 = true → p.2 = some (getQueuePosition db p.1))
        ∧ (isActive p.1 = false → p.2 = none)) := by
  refine ⟨?_, ?_, ?_, ?_, ?_, ?_⟩
  · rw [orderHistory, List.length_take,
      (List.perm_insertionSort keyGE (db.filter (historyMatch s d))).length_eq]
  · exact (List.sorted_insertionSort keyGE _).sublist (List.take_sublist _ _)
  · intro o ho
    have h1 : o ∈ (db.filter (historyMatch s d)).insertionSort keyGE :=
      (List.take_sublist _ _).subset ho
    have h2 : o ∈ db.filter (historyMatch s d) :=
      (List.perm_insertionSort keyGE _).mem_iff.mp h1
    exact (List.mem_filter.mp h2).2
  · rw [myOrders, List.length_map, List.length_take,
      (List.perm_insertionSort keyGE _).length_eq]
  · rw [myOrders]
    refine List.pairwise_map.mpr ?_
    exact (List.sorted_insertionSort keyGE _).sublist (List.take_sublist _ _)
  · intro p hp
    rw [myOrders] at hp
    rcases List.mem_map.mp hp with ⟨o, ho, hpo⟩
    have h1 : o ∈ (db.filter _).insertionSort keyGE := (List.take_sublist _ _).subset ho
    have h2 := (List.perm_insertionSort keyGE _).mem_iff.mp h1
    have h3 := (List.mem_filter.mp h2).2
    have huid : o.userId = some uid := by
      have h4 := h3
      simp only [Bool.and_eq_true, beq_iff_eq] at h4
      exact h4.1
    subst hpo
    refine ⟨huid, ?_, ?_⟩
    · intro ha; simp [ha]
    · intro ha; simp [ha]

/-- C10 witness: caps and filter facts at a concrete collection. -/
theorem listing_caps_witness :
    (orderHistory dbW none none).length = min 200 (dbW.filter (historyMatch none none)).length
    ∧ historyMatch (some Status.ready) none ⟨3, none, "C", [], 0, Status.ready, 200⟩ = true :=
  ⟨(listing_caps dbW none none 0).1,
   (listing_caps dbW (some Status.ready) none 0).2.2.1
     ⟨3, none, "C", [], 0, Status.ready, 200⟩ (by decide)⟩

end Qless
